import Mathlib

/-!
Verification of the free-list allocator in
src/03-select-search-mode-collector/main.cpp (a manual heap allocator with
pluggable FirstFit / NextFit / BestFit search over a chain of blocks grown
from an sbrk-style region).

The C++ program is shallowly embedded here:
  - size_t arithmetic is Nat with explicit mod 2^64 where the source can wrap;
  - the intrusive pointer chain (heapStart, Block::next, top) is a Lean list
    in chain order, with the C++ block pointer represented as an index into
    that list (blocks are never removed by this program, so indices are
    stable) and a null pointer as an out-of-range index or Option.none;
  - each block records its address (the value sbrk returned), so payload
    pointers and getHeader arithmetic are modelled exactly;
  - the global mutable state (heapStart, top, searchStart, searchMode, the
    program break) is an explicit AllocState record threaded through;
  - sbrk is modelled by a break and a limit in the state: the request is
    denied exactly when it would push the break past the limit (the spec
    asks for an injectable growth primitive so exhaustion is testable);
  - the unbounded C++ loops (nextFit, bestFit) take an explicit fuel
    argument; a result of none means the fuel ran out, and theorems either
    supply provably sufficient fuel or prove that no fuel suffices (the
    bestFit loop really can fail to terminate).
-/

namespace Alloc

/-- Machine word size: sizeof(word_t) with word_t = intptr_t on a 64-bit
machine, as assumed throughout the repository (its tests assert 8-byte
alignment and a 32-byte header). -/
def wordSize : Nat := 8

/-- Size of the Block structure: size_t size (8) + bool used (1+7 padding)
+ Block* next (8) + word_t data[1] (8) = 32; the repository test suite
asserts sizeof(Block) == 32. -/
def sizeofBlock : Nat := 32

/-- Size of the data member of Block: sizeof(std::declval<Block>().data),
one machine word. -/
def sizeofData : Nat := 8

/-- Offset of the data member inside Block: the payload starts right after
the header fields size, used (padded) and next. -/
def dataOffset : Nat := sizeofBlock - sizeofData

/-- Embedding of align: (n + sizeof(word_t) - 1) & ~(sizeof(word_t) - 1) on
size_t, so the addition wraps mod 2^64 and the mask ~7 is 2^64 - 8. -/
def align (n : Nat) : Nat := ((n + (wordSize - 1)) % 2 ^ 64) &&& (2 ^ 64 - wordSize)

/-- Embedding of allocSize: size + sizeof(Block) - sizeof(data), the total
footprint of one block including its header, on size_t. -/
def allocSize (size : Nat) : Nat := (size + (sizeofBlock - sizeofData)) % 2 ^ 64

/-- Embedding of getHeader: (char*)data + sizeof(data) - sizeof(Block),
i.e. the payload pointer minus 24. Addresses are Nat; the program only
hands out payload pointers at least dataOffset, so the truncated
subtraction never loses information on reachable inputs. -/
def getHeader (data : Nat) : Nat := data + sizeofData - sizeofBlock

/-- Address of the data member of a block whose header sits at a. -/
def payloadAddr (a : Nat) : Nat := a + dataOffset

/-- Embedding of struct Block. The next pointer of the source is the list
order of AllocState.chain; addr is the address sbrk handed out for this
header, kept so payload pointers and getHeader are modelled exactly. -/
structure Block where
  addr : Nat
  size : Nat
  used : Bool
deriving DecidableEq

/-- Embedding of enum class SearchMode. -/
inductive SearchMode where
  | FirstFit
  | NextFit
  | BestFit
deriving DecidableEq

/-- Embedding of the global allocator state: heapStart/top/next become the
list chain (head = heapStart, last = top), searchStart becomes cursor (an
index, none for nullptr), searchMode becomes mode, and the sbrk region is
the pair brk (current program break, relative to the initial break) and
limit (the point past which sbrk denies growth). -/
structure AllocState where
  chain : List Block
  cursor : Option Nat
  mode : SearchMode
  brk : Nat
  limit : Nat
deriving DecidableEq

/-- State of a freshly started program after init(mode): null heapStart,
null top, null searchStart, the given search mode, break at 0. -/
def freshState (mode : SearchMode) (limit : Nat) : AllocState :=
  { chain := [], cursor := none, mode := mode, brk := 0, limit := limit }

/-- Embedding of resetHeap: if the heap was never grown do nothing,
otherwise roll the break back to heapStart and null out the globals. -/
def resetHeap (s : AllocState) : AllocState :=
  match s.chain.head? with
  | none => s
  | some b => { s with chain := [], cursor := none, brk := b.addr }

/-- Embedding of init: install the search mode, then resetHeap. -/
def initAlloc (s : AllocState) (mode : SearchMode) : AllocState :=
  resetHeap { s with mode := mode }

/-- Embedding of requestFromOS: remember the current break, try to advance
it by allocSize(size); on denial return none (the C++ returns nullptr),
otherwise the address of the new span. -/
def requestFromOS (s : AllocState) (size : Nat) : Option (Nat × AllocState) :=
  let block := s.brk
  let deltaIncrement := allocSize size
  if s.brk + deltaIncrement ≤ s.limit then
    some (block, { s with brk := s.brk + deltaIncrement })
  else
    none

/-- Skip test shared by all three searches in the source:
block->used || block->size < alignedSize. -/
def skip (b : Block) (alignedSize : Nat) : Bool :=
  b.used || decide (b.size < alignedSize)

/-- Loop of firstFit: walk the chain from an index, returning the first
block that is free and large enough. -/
def firstFitGo (alignedSize : Nat) : List Block → Nat → Option Nat
  | [], _ => none
  | b :: rest, i =>
    if skip b alignedSize then firstFitGo alignedSize rest (i + 1) else some i

/-- Embedding of firstFit: scan from heapStart. -/
def firstFit (chain : List Block) (alignedSize : Nat) : Option Nat :=
  firstFitGo alignedSize chain 0

/-- Loop body of nextFit (the while (true) loop). The current block pointer
is the index i; cstart is the searchStart value fixed at entry (it is only
written on success, right before returning). Advancing past the last block
yields the null pointer, triggering either the give-up (no cursor) or the
wrap to heapStart; reaching the cursor again ends the scan. The fuel
argument bounds the number of iterations; none means it ran out. -/
def nextFitLoop (chain : List Block) (cstart : Option Nat) (alignedSize : Nat) :
    Nat → Nat → Option (Option Nat)
  | 0, _ => none
  | fuel + 1, i =>
    match chain[i]? with
    | none => some none
    | some b =>
      if skip b alignedSize then
        if i + 1 = chain.length then
          match cstart with
          | none => some none
          | some c => if c = 0 then some none else nextFitLoop chain cstart alignedSize fuel 0
        else if cstart = some (i + 1) then some none
        else nextFitLoop chain cstart alignedSize fuel (i + 1)
      else some (some i)

/-- Embedding of nextFit: start at searchStart (or heapStart when the
cursor is null; if that is also null, fail), run the loop, and on success
store the found block in the cursor. The outer none means the fuel ran
out. -/
def nextFit (s : AllocState) (alignedSize : Nat) (fuel : Nat) :
    Option (Option Nat × AllocState) :=
  match s.cursor with
  | none =>
    if s.chain.length = 0 then some (none, s)
    else
      match nextFitLoop s.chain none alignedSize fuel 0 with
      | none => none
      | some none => some (none, s)
      | some (some i) => some (some i, { s with cursor := some i })
  | some c =>
    match nextFitLoop s.chain (some c) alignedSize fuel c with
    | none => none
    | some none => some (none, s)
    | some (some i) => some (some i, { s with cursor := some i })

/-- Size of the block a (valid) index points to. -/
def sizeAt (chain : List Block) (i : Nat) : Nat :=
  (chain[i]?.map Block.size).getD 0

/-- Loop of bestFit (the while (block != nullptr) loop). i is the current
block pointer (an out-of-range index is the null pointer), best the
bestFitBlock pointer. Mirroring the source exactly: a free, fitting,
non-exact block that is not strictly smaller than the current bestFitBlock
advances neither pointer, so the loop spins forever; the fuel argument
makes that observable as a none result for every fuel. -/
def bestFitLoop (chain : List Block) (alignedSize : Nat) :
    Nat → Nat → Option Nat → Option (Option Nat)
  | 0, _, _ => none
  | fuel + 1, i, best =>
    match chain[i]? with
    | none => some best
    | some b =>
      if skip b alignedSize then bestFitLoop chain alignedSize fuel (i + 1) best
      else if b.size = alignedSize then some (some i)
      else
        match best with
        | none => bestFitLoop chain alignedSize fuel (i + 1) (some i)
        | some bi =>
          if b.size < sizeAt chain bi then bestFitLoop chain alignedSize fuel (i + 1) (some i)
          else bestFitLoop chain alignedSize fuel i (some bi)

/-- Embedding of findBlock: dispatch on the search mode. The result pairs
the found block (if any) with the possibly cursor-updated state; the outer
none means the chosen search ran out of fuel. -/
def findBlock (s : AllocState) (alignedSize : Nat) (fuel : Nat) :
    Option (Option Nat × AllocState) :=
  match s.mode with
  | SearchMode.FirstFit => some (firstFit s.chain alignedSize, s)
  | SearchMode.NextFit => nextFit s alignedSize fuel
  | SearchMode.BestFit =>
    (bestFitLoop s.chain alignedSize fuel 0 none).map (fun r => (r, s))

set_option linter.unusedVariables false in
/-- Embedding of split: the source computes newBlockSize and then returns
nullptr unconditionally (the carve is never implemented). -/
def split (block : Block) (size : Nat) : Option Block :=
  let newBlockSize := block.size - allocSize size
  none

/-- Embedding of canSplit: block->size > size. -/
def canSplit (block : Block) (size : Nat) : Bool :=
  decide (size < block.size)

/-- Embedding of listAllocate (dead code: alloc never calls it). When
canSplit holds it calls split, which returns null, and then writes through
that null pointer; none models that crash. -/
def listAllocate (block : Block) (size : Nat) : Option Block :=
  if canSplit block size then
    match split block size with
    | none => none
    | some b => some { b with used := true, size := size }
  else
    some { block with used := true, size := size }

/-- Embedding of alloc. A some result is the new state and the returned
payload pointer. A none result means the C++ call does not return
normally: either the search loop never terminates, or requestFromOS
returned null and the very next line (block->size = alignedSize) writes
through the null pointer — alloc never checks the OOM result. -/
def alloc (s : AllocState) (size : Nat) (fuel : Nat) : Option (AllocState × Nat) :=
  let alignedSize := align size
  match findBlock s alignedSize fuel with
  | none => none
  | some (some i, s1) =>
    match s1.chain[i]? with
    | none => none
    | some b =>
      some ({ s1 with chain := s1.chain.set i { b with used := true } },
        payloadAddr b.addr)
  | some (none, s1) =>
    match requestFromOS s1 alignedSize with
    | none => none
    | some (addr, s2) =>
      some ({ s2 with chain := s2.chain ++ [{ addr := addr, size := alignedSize, used := true }] },
        payloadAddr addr)

/-- Embedding of free: resolve the header with getHeader and clear the
used flag of the block at that address — nothing else. The map leaves
every non-matching block untouched; a pointer that resolves into no block
at all would be undefined behaviour in the source and changes nothing
here. -/
def free (s : AllocState) (data : Nat) : AllocState :=
  { s with chain := s.chain.map (fun b =>
      if b.addr = getHeader data then { b with used := false } else b) }

/-- Result type of the free operation as the spec describes it. -/
inductive FreeResult where
  | ok (s : AllocState)
  | doubleFree
  | invalidHandle
deriving DecidableEq

/-- Specification-side model of free, written from the wording of the spec
(section 4.4) for comparison with the free of the source: resolve the
block from the handle; fail with DoubleFree when it is already free;
otherwise clear used and, when the chain-adjacent next block exists and is
also free, merge it in (the freed size becomes size + allocSize(next.size))
and splice the next block out of the chain. -/
def freeSpec (s : AllocState) (data : Nat) : FreeResult :=
  match s.chain.findIdx? (fun b => b.addr == getHeader data) with
  | none => FreeResult.invalidHandle
  | some i =>
    match s.chain[i]? with
    | none => FreeResult.invalidHandle
    | some b =>
      if b.used = false then FreeResult.doubleFree
      else
        let b2 : Block := { b with used := false }
        match s.chain[i + 1]? with
        | some nb =>
          if nb.used = false then
            FreeResult.ok { s with
              chain := (s.chain.set i { b2 with size := b2.size + allocSize nb.size }).eraseIdx (i + 1) }
          else FreeResult.ok { s with chain := s.chain.set i b2 }
        | none => FreeResult.ok { s with chain := s.chain.set i b2 }

/-- List of k consecutive indices starting at i. -/
def seg : Nat → Nat → List Nat
  | _, 0 => []
  | i, k + 1 => i :: seg (i + 1) k

/-- Order in which nextFit visits block indices: from the cursor to the end
of the chain, then (wrapping once) from the head up to just before the
cursor; without a cursor, head to end with no wrap. -/
def scanOrder (n : Nat) (cursor : Option Nat) : List Nat :=
  match cursor with
  | none => seg 0 n
  | some c => seg c (n - c) ++ seg 0 c

/-- Fitness of the block at index i: in range, free, and large enough. -/
def fitsIdx (chain : List Block) (alignedSize : Nat) (i : Nat) : Bool :=
  match chain[i]? with
  | some b => ! skip b alignedSize
  | none => false

/-- Declarative description of nextFit: the first fitting index in scan
order. -/
def nextFitSpec (chain : List Block) (cursor : Option Nat) (alignedSize : Nat) : Option Nat :=
  (scanOrder chain.length cursor).find? (fitsIdx chain alignedSize)

/-! Concrete states used to evaluate the code on the inputs the claims
talk about. -/

/-- Chain with a used 16-byte block whose chain-adjacent successor is a
free 32-byte block (addresses follow the 24-byte header footprints). -/
def coalesceState : AllocState :=
  { chain := [{ addr := 0, size := 16, used := true }, { addr := 40, size := 32, used := false }],
    cursor := none, mode := SearchMode.FirstFit, brk := 96, limit := 1000 }

/-- Chain whose only block is free with size 64, under BestFit. -/
def splitCandState : AllocState :=
  { chain := [{ addr := 0, size := 64, used := false }],
    cursor := none, mode := SearchMode.BestFit, brk := 88, limit := 1000 }

/-- Chain whose first block has already been freed (its neighbour still
used), as after the first of two frees of the same handle. -/
def freedState : AllocState :=
  { chain := [{ addr := 0, size := 16, used := false }, { addr := 40, size := 16, used := true }],
    cursor := none, mode := SearchMode.FirstFit, brk := 80, limit := 1000 }

/-- State with no reusable block whose region limit is already reached, so
the next growth request is denied. -/
def oomState : AllocState :=
  { chain := [{ addr := 0, size := 16, used := true }],
    cursor := none, mode := SearchMode.FirstFit, brk := 40, limit := 40 }

/-- Chain with two free blocks of the same size 32, under BestFit. -/
def equalPairState : AllocState :=
  { chain := [{ addr := 0, size := 32, used := false }, { addr := 56, size := 32, used := false }],
    cursor := none, mode := SearchMode.BestFit, brk := 112, limit := 10000 }

/-- Chain of a used block and two free 16-byte blocks with the cursor on
the last one, under NextFit. -/
def nfState : AllocState :=
  { chain := [{ addr := 0, size := 8, used := true }, { addr := 32, size := 16, used := false },
      { addr := 72, size := 16, used := false }],
    cursor := some 2, mode := SearchMode.NextFit, brk := 112, limit := 1000 }

/-- Chain with one used block, for the frame property of free. -/
def frameState : AllocState :=
  { chain := [{ addr := 0, size := 16, used := true }],
    cursor := none, mode := SearchMode.FirstFit, brk := 40, limit := 1000 }

/-! Helper lemmas. -/

/-- Mapping twice with a pointwise idempotent function is mapping once. -/
lemma map_idem {α : Type} (f : α → α) (hf : ∀ a, f (f a) = f a) :
    ∀ l : List α, (l.map f).map f = l.map f := by
  intro l
  induction l with
  | nil => rfl
  | cons x xs ih => simp [hf, ih]

/-- Mapping with a function that fixes every member is the identity. -/
lemma map_eq_self_of {α : Type} (f : α → α) :
    ∀ l : List α, (∀ a ∈ l, f a = a) → l.map f = l := by
  intro l
  induction l with
  | nil => intro h; rfl
  | cons x xs ih =>
    intro h
    have hx := h x (List.mem_cons_self x xs)
    have hxs := ih (fun a ha => h a (List.mem_cons_of_mem x ha))
    simp [hx, hxs]

/-- Masking with ~7 on a 64-bit value clears the low three bits, i.e.
rounds down to a multiple of 8. -/
lemma land_mask (x : Nat) (hx : x < 2 ^ 64) : x &&& (2 ^ 64 - 8) = x / 8 * 8 := by
  have hmask : (2 : Nat) ^ 64 - 8 = (2 ^ 61 - 1) <<< 3 := by
    rw [Nat.shiftLeft_eq]; norm_num
  have hrhs : x / 8 * 8 = (x >>> 3) <<< 3 := by
    rw [Nat.shiftLeft_eq, Nat.shiftRight_eq_div_pow]
  apply Nat.eq_of_testBit_eq
  intro i
  rw [Nat.testBit_land, hmask, hrhs, Nat.testBit_shiftLeft, Nat.testBit_shiftLeft,
    Nat.testBit_shiftRight, Nat.testBit_two_pow_sub_one]
  by_cases h3 : 3 ≤ i
  · have h33 : 3 + (i - 3) = i := by omega
    rw [h33]
    by_cases h64 : i < 64
    · simp [ge_iff_le, h3, show i - 3 < 61 by omega]
    · have hxi : x.testBit i = false :=
        Nat.testBit_lt_two_pow
          (lt_of_lt_of_le hx (Nat.pow_le_pow_right (by norm_num) (by omega)))
      simp [hxi, ge_iff_le, h3, show ¬ i - 3 < 61 by omega]
  · simp [ge_iff_le, h3]

/-! Claim theorems. -/

/-- C1: the claim says free eagerly coalesces the freed block with a free
chain-adjacent next block (size becomes size + allocSize(next.size), next
spliced out) and that a following alloc of the merged size reuses the
merged block without growth. Evaluating the code at the failing input:
free only clears the used flag — the two blocks stay separate with sizes
16 and 32 — and a following alloc(72) (the size the merged block would
have) grows the region to a third block instead of reusing. The
spec-modelled freeSpec would have produced the single merged 72-byte
block. -/
theorem free_no_coalesce_eval :
    free coalesceState (payloadAddr 0) =
      { coalesceState with
        chain := [{ addr := 0, size := 16, used := false },
          { addr := 40, size := 32, used := false }] } ∧
    (alloc (free coalesceState (payloadAddr 0)) 72 5).map (fun r => r.1.chain.length) = some 3 ∧
    freeSpec coalesceState (payloadAddr 0) =
      FreeResult.ok { coalesceState with chain := [{ addr := 0, size := 72, used := false }] } := by
  decide

/-- C2: the claim says alloc splits a sufficiently large candidate,
carving a used block and splicing a free remainder into the chain. In the
code the split routine always returns the null pointer (the carve was
never implemented), and alloc never even calls it: reusing a free 64-byte
block for alloc(16) marks the whole block used, keeps its size 64, and
adds no remainder (the chain keeps exactly one block). -/
theorem split_never_carves :
    (∀ (b : Block) (sz : Nat), split b sz = none) ∧
    alloc splitCandState 16 5 =
      some ({ splitCandState with chain := [{ addr := 0, size := 64, used := true }] }, 24) := by
  exact ⟨fun b sz => rfl, by decide⟩

/-- C3 counterexample: the claim says a second free of the same handle
fails with DoubleFree. At this concrete input the block is already free:
the code returns normally with the state completely unchanged — there is
no DoubleFree (or any other) failure path in free — while the
spec-modelled freeSpec fails with DoubleFree as the claim demands. -/
theorem double_free_counterexample :
    free freedState (payloadAddr 0) = freedState ∧
    freeSpec freedState (payloadAddr 0) = FreeResult.doubleFree := by
  decide

/-- C3 amended: a second free of the same handle returns normally and
mutates nothing — when every block the handle resolves to is already
free, free is the identity on the state (no DoubleFree error exists in
the code). -/
theorem free_already_free_noop (s : AllocState) (data : Nat)
    (h : ∀ b ∈ s.chain, b.addr = getHeader data → b.used = false) :
    free s data = s := by
  have hmap : s.chain.map
      (fun b => if b.addr = getHeader data then { b with used := false } else b) = s.chain := by
    apply map_eq_self_of
    intro b hb
    by_cases hba : b.addr = getHeader data
    · have hu := h b hb hba
      cases b with
      | mk addr size used =>
        simp only at hu
        simp [hba, hu]
    · simp [hba]
  unfold free
  rw [hmap]

/-- C3 amended, witness at the concrete double-free input. -/
theorem free_already_free_noop_w : free freedState (payloadAddr 0) = freedState :=
  free_already_free_noop freedState (payloadAddr 0) (by decide)

/-- C4: the claim says alloc returns OutOfMemory and leaves the state
unchanged when the search misses and growth is denied. In the code
requestFromOS does return null on denial, but alloc never checks it and
immediately writes block->size through the null pointer: the call does
not return normally at all (modelled as none). -/
theorem alloc_oom_null_deref :
    requestFromOS oomState (align 16) = none ∧ alloc oomState 16 5 = none := by
  decide

/-- C5 helper: once the bestFit loop stands on the second free 32-byte
block with the first recorded as bestFitBlock, the iteration advances
neither pointer, so no amount of fuel finishes the loop. -/
lemma bestFitLoop_stuck :
    ∀ fuel, bestFitLoop equalPairState.chain 16 fuel 1 (some 0) = none := by
  intro fuel
  induction fuel with
  | zero => rfl
  | succ f ih =>
    have hstep : bestFitLoop equalPairState.chain 16 (f + 1) 1 (some 0) =
        bestFitLoop equalPairState.chain 16 f 1 (some 0) := by
      norm_num [bestFitLoop, equalPairState, skip, sizeAt]
    rw [hstep]
    exact ih

/-- C5: the claim says BestFit performs a full scan and deterministically
returns the smallest sufficient free block, first-encountered winning
among equal sizes. On a chain of two free blocks of equal size 32 with
request 16 the loop reaches the second candidate and, since it is not
strictly smaller than the recorded best, advances neither the block nor
the best pointer: the scan never terminates, so alloc never returns, for
every fuel bound. -/
theorem bestFit_diverges_on_equal_sizes :
    ∀ fuel, alloc equalPairState 16 fuel = none := by
  intro fuel
  have halign : align 16 = 16 := by decide
  have hloop : bestFitLoop equalPairState.chain 16 fuel 0 none = none := by
    cases fuel with
    | zero => rfl
    | succ f =>
      have hstep : bestFitLoop equalPairState.chain 16 (f + 1) 0 none =
          bestFitLoop equalPairState.chain 16 f 1 (some 0) := by
        norm_num [bestFitLoop, equalPairState, skip]
      rw [hstep]
      exact bestFitLoop_stuck f
  have hfind : findBlock equalPairState 16 fuel =
      (bestFitLoop equalPairState.chain 16 fuel 0 none).map (fun r => (r, equalPairState)) := rfl
  simp only [alloc, halign]
  rw [hfind, hloop]
  rfl

/-- C7 counterexample: the claim says the alignment function detects and
rejects (InvalidArgument) inputs near the representable maximum instead of
wrapping. At n = 2^64 - 1 the computation wraps silently: the result is 0,
strictly below n, and align has no failure path at all. -/
theorem align_overflow_counterexample :
    align (2 ^ 64 - 1) = 0 ∧ align (2 ^ 64 - 1) < 2 ^ 64 - 1 := by
  decide

/-- C7 amended: for every n with n + 7 < 2^64 (no size_t overflow) align
rounds n up to the next multiple of the word size and leaves already
aligned values unchanged; beyond that bound the arithmetic silently wraps
modulo 2^64 (see the counterexample) — there is no overflow detection and
no InvalidArgument. -/
theorem align_rounds_up (n : Nat) (h : n + 7 < 2 ^ 64) :
    align n = (n + 7) / 8 * 8 ∧ n ≤ align n ∧ align n < n + 8 ∧
    align n % 8 = 0 ∧ (n % 8 = 0 → align n = n) := by
  have e : align n = ((n + 7) % 2 ^ 64) &&& (2 ^ 64 - 8) := rfl
  have h1 : align n = (n + 7) / 8 * 8 := by
    rw [e, Nat.mod_eq_of_lt h]
    exact land_mask (n + 7) h
  refine ⟨h1, ?_, ?_, ?_, ?_⟩ <;> rw [h1] <;> omega

/-- C7 amended, witness: align rounds 13 up to 16. -/
theorem align_rounds_up_w : align 13 = 16 := by
  have h := align_rounds_up 13 (by norm_num)
  simpa using h.1

/-- C8 counterexample: the claim says alloc rejects size 0 with
InvalidArgument (or allocates a documented minimum-size block). The code
does neither: align 0 = 0, the request is accepted, and a used block of
size 0 is created — violating the positive-size policy — with no error
anywhere. -/
theorem alloc_zero_counterexample :
    align 0 = 0 ∧
    alloc (freshState SearchMode.FirstFit 100) 0 1 =
      some ({ chain := [{ addr := 0, size := 0, used := true }], cursor := none,
              mode := SearchMode.FirstFit, brk := 24, limit := 100 }, 24) := by
  decide

/-- C8 amended: alloc(0) is accepted, not rejected: on a fresh allocator
whose region can grow by the 24-byte header footprint, alloc(0) creates a
used block of size 0 and returns its payload pointer; no InvalidArgument
is ever produced. -/
theorem alloc_zero_policy (limit : Nat) (h : 24 ≤ limit) :
    alloc (freshState SearchMode.FirstFit limit) 0 1 =
      some ({ chain := [{ addr := 0, size := 0, used := true }], cursor := none,
              mode := SearchMode.FirstFit, brk := 24, limit := limit }, 24) := by
  have ha : align 0 = 0 := by decide
  have hs : allocSize 0 = 24 := by decide
  simp [alloc, findBlock, freshState, firstFit, firstFitGo, ha, requestFromOS, hs, h,
    payloadAddr, dataOffset, sizeofBlock, sizeofData]

/-- C8 amended, witness at limit 100. -/
theorem alloc_zero_policy_w :
    alloc (freshState SearchMode.FirstFit 100) 0 1 =
      some ({ chain := [{ addr := 0, size := 0, used := true }], cursor := none,
              mode := SearchMode.FirstFit, brk := 24, limit := 100 }, 24) :=
  alloc_zero_policy 100 (by norm_num)

/-- C9: the payload begins at the fixed statically known offset
dataOffset = 24 after the header, and the header is recovered from a
payload address by the getHeader arithmetic: the round trip is the
identity, and every payload pointer alloc hands out resolves back through
getHeader to a block of the chain (marked used). -/
theorem header_payload_roundtrip :
    (∀ a : Nat, getHeader (payloadAddr a) = a) ∧
    (∀ (s : AllocState) (size fuel : Nat) (s2 : AllocState) (h : Nat),
      alloc s size fuel = some (s2, h) →
      ∃ (i : Nat) (b : Block), s2.chain[i]? = some b ∧ b.addr = getHeader h ∧ b.used = true) := by
  have hrt : ∀ a : Nat, getHeader (payloadAddr a) = a := by
    intro a
    simp [getHeader, payloadAddr, dataOffset, sizeofBlock, sizeofData]
  refine ⟨hrt, ?_⟩
  intro s size fuel s2 h ha
  simp only [alloc] at ha
  cases hf : findBlock s (align size) fuel with
  | none => simp [hf] at ha
  | some rs =>
    obtain ⟨r, s1⟩ := rs
    cases r with
    | some i =>
      cases hbi : s1.chain[i]? with
      | none => simp [hf, hbi] at ha
      | some b =>
        simp only [hf, hbi, Option.some.injEq, Prod.mk.injEq] at ha
        obtain ⟨hs2, hh⟩ := ha
        have hlen : i < s1.chain.length := by
          by_contra hcon
          rw [List.getElem?_eq_none (by omega)] at hbi
          exact Option.noConfusion hbi
        refine ⟨i, { b with used := true }, ?_, ?_, rfl⟩
        · rw [← hs2]
          simpa using List.getElem?_set_eq_of_lt { b with used := true } hlen
        · rw [← hh]
          simpa using (hrt b.addr).symm
    | none =>
      cases hro : requestFromOS s1 (align size) with
      | none => simp [hf, hro] at ha
      | some as2 =>
        obtain ⟨addr, s3⟩ := as2
        simp only [hf, hro, Option.some.injEq, Prod.mk.injEq] at ha
        obtain ⟨hs2, hh⟩ := ha
        refine ⟨s3.chain.length, { addr := addr, size := align size, used := true }, ?_, ?_, rfl⟩
        · rw [← hs2]
          exact List.getElem?_concat_length s3.chain _
        · rw [← hh]
          simpa using (hrt addr).symm

/-- C9 witness: the payload pointer 24 returned by an alloc on a fresh
allocator resolves back to the used block at address 0. -/
theorem header_payload_roundtrip_w :
    ∃ (i : Nat) (b : Block),
      ({ chain := [{ addr := 0, size := 16, used := true }], cursor := none,
         mode := SearchMode.FirstFit, brk := 40, limit := 100 } : AllocState).chain[i]? = some b ∧
      b.addr = getHeader 24 ∧ b.used = true :=
  header_payload_roundtrip.2 (freshState SearchMode.FirstFit 100) 16 1
    { chain := [{ addr := 0, size := 16, used := true }], cursor := none,
      mode := SearchMode.FirstFit, brk := 40, limit := 100 } 24 (by decide)

/-- C10: free touches only the used flag of the block its handle resolves
to: the cursor, mode, break, limit and chain length are untouched, every
block of the chain is unchanged except that the resolved one has used set
to false, and freeing the same handle again reproduces the same state
(free is idempotent). -/
theorem free_frame (s : AllocState) (data : Nat) :
    (free s data).cursor = s.cursor ∧ (free s data).mode = s.mode ∧
    (free s data).brk = s.brk ∧ (free s data).limit = s.limit ∧
    (free s data).chain.length = s.chain.length ∧
    (∀ (i : Nat) (b : Block), s.chain[i]? = some b →
      (free s data).chain[i]? =
        some (if b.addr = getHeader data then { b with used := false } else b)) ∧
    free (free s data) data = free s data := by
  refine ⟨rfl, rfl, rfl, rfl, by simp [free], ?_, ?_⟩
  · intro i b hb
    simp [free, List.getElem?_map, hb]
  · have hidem : ∀ b : Block,
        (fun b => if b.addr = getHeader data then { b with used := false } else b)
          ((fun b => if b.addr = getHeader data then { b with used := false } else b) b) =
        (fun b => if b.addr = getHeader data then { b with used := false } else b) b := by
      intro b
      by_cases hba : b.addr = getHeader data <;> simp [hba]
    show ({ s with chain :=
        (s.chain.map (fun b =>
          if b.addr = getHeader data then { b with used := false } else b)).map (fun b =>
          if b.addr = getHeader data then { b with used := false } else b) } : AllocState) =
      { s with chain := s.chain.map (fun b =>
          if b.addr = getHeader data then { b with used := false } else b) }
    rw [map_idem _ hidem]

/-- C10 witness at a concrete one-block state. -/
theorem free_frame_w :
    (free frameState (payloadAddr 0)).chain[0]? =
      some { addr := 0, size := 16, used := false } ∧
    free (free frameState (payloadAddr 0)) (payloadAddr 0) = free frameState (payloadAddr 0) := by
  have h := free_frame frameState (payloadAddr 0)
  refine ⟨?_, h.2.2.2.2.2.2⟩
  have h6 := h.2.2.2.2.2.1 0 { addr := 0, size := 16, used := true } (by decide)
  simpa using h6

/-- C6 helper: with a null cursor the loop run from index i inspects
exactly the indices i, i+1, ..., length-1 in order, returns the first
fitting one, and gives up at the end of the chain without wrapping. -/
lemma nextFitLoop_noCursor (chain : List Block) (a : Nat) :
    ∀ fuel i, chain.length - i < fuel →
      nextFitLoop chain none a fuel i =
        some ((seg i (chain.length - i)).find? (fitsIdx chain a)) := by
  intro fuel
  induction fuel with
  | zero => intro i hfu; omega
  | succ f ih =>
    intro i hfu
    by_cases hin : i < chain.length
    · have hb : chain[i]? = some chain[i] := List.getElem?_eq_getElem hin
      have hseg : chain.length - i = (chain.length - (i + 1)) + 1 := by omega
      cases hsk : skip chain[i] a with
      | false =>
        have hfits : fitsIdx chain a i = true := by simp [fitsIdx, hb, hsk]
        rw [hseg]
        simp only [seg]
        rw [List.find?_cons_of_pos _ hfits]
        simp only [nextFitLoop, hb, hsk]
        rfl
      | true =>
        have hfits : fitsIdx chain a i = false := by simp [fitsIdx, hb, hsk]
        rw [hseg]
        simp only [seg]
        rw [List.find?_cons_of_neg _ (by simp [hfits])]
        by_cases hnext : i + 1 = chain.length
        · have hz : chain.length - (i + 1) = 0 := by omega
          rw [hz]
          simp only [nextFitLoop, hb, hsk, if_pos hnext]
          simp [seg]
        · have hrec := ih (i + 1) (by omega)
          simp only [nextFitLoop, hb, hsk]
          rw [if_neg hnext, if_neg (by simp : ¬ (none : Option Nat) = some (i + 1))]
          exact hrec
    · have hb : chain[i]? = none := List.getElem?_eq_none (by omega)
      have hz : chain.length - i = 0 := by omega
      rw [hz]
      simp only [nextFitLoop, hb]
      simp [seg]

/-- C6 helper: in the wrapped-around part of the scan (indices below the
cursor) the loop inspects exactly i, ..., cursor-1 in order and stops at
the cursor. -/
lemma nextFitLoop_beforeCursor (chain : List Block) (a c : Nat) (hc : c < chain.length) :
    ∀ fuel i, i < c → c - i ≤ fuel →
      nextFitLoop chain (some c) a fuel i =
        some ((seg i (c - i)).find? (fitsIdx chain a)) := by
  intro fuel
  induction fuel with
  | zero => intro i hic hfu; omega
  | succ f ih =>
    intro i hic hfu
    have hin : i < chain.length := by omega
    have hb : chain[i]? = some chain[i] := List.getElem?_eq_getElem hin
    have hseg : c - i = (c - (i + 1)) + 1 := by omega
    cases hsk : skip chain[i] a with
    | false =>
      have hfits : fitsIdx chain a i = true := by simp [fitsIdx, hb, hsk]
      rw [hseg]
      simp only [seg]
      rw [List.find?_cons_of_pos _ hfits]
      simp only [nextFitLoop, hb, hsk]
      rfl
    | true =>
      have hfits : fitsIdx chain a i = false := by simp [fitsIdx, hb, hsk]
      have hnext : ¬ (i + 1 = chain.length) := by omega
      rw [hseg]
      simp only [seg]
      rw [List.find?_cons_of_neg _ (by simp [hfits])]
      by_cases hstop : i + 1 = c
      · have hz : c - (i + 1) = 0 := by omega
        rw [hz]
        simp only [nextFitLoop, hb, hsk]
        rw [if_neg hnext,
          if_pos (show (some c : Option Nat) = some (i + 1) by rw [hstop])]
        simp [seg]
      · have hrec := ih (i + 1) (by omega) (by omega)
        simp only [nextFitLoop, hb, hsk]
        rw [if_neg hnext,
          if_neg (show ¬ (some c : Option Nat) = some (i + 1) by
            simp only [Option.some.injEq]; omega)]
        exact hrec

/-- C6 helper: from the cursor onward the loop inspects the indices
cursor, ..., length-1 and then, wrapping once to the head, 0, ...,
cursor-1, in that order, returning the first fit. -/
lemma nextFitLoop_fromCursor (chain : List Block) (a c : Nat) (hc : c < chain.length) :
    ∀ fuel i, c ≤ i → i < chain.length → chain.length - i + c < fuel →
      nextFitLoop chain (some c) a fuel i =
        some ((seg i (chain.length - i) ++ seg 0 c).find? (fitsIdx chain a)) := by
  intro fuel
  induction fuel with
  | zero => intro i h1 h2 h3; omega
  | succ f ih =>
    intro i h1 h2 h3
    have hb : chain[i]? = some chain[i] := List.getElem?_eq_getElem h2
    have hseg : chain.length - i = (chain.length - (i + 1)) + 1 := by omega
    cases hsk : skip chain[i] a with
    | false =>
      have hfits : fitsIdx chain a i = true := by simp [fitsIdx, hb, hsk]
      rw [hseg]
      simp only [seg, List.cons_append]
      rw [List.find?_cons_of_pos _ hfits]
      simp only [nextFitLoop, hb, hsk]
      rfl
    | true =>
      have hfits : fitsIdx chain a i = false := by simp [fitsIdx, hb, hsk]
      rw [hseg]
      simp only [seg, List.cons_append]
      rw [List.find?_cons_of_neg _ (by simp [hfits])]
      by_cases hnext : i + 1 = chain.length
      · have hz : chain.length - (i + 1) = 0 := by omega
        rw [hz]
        simp only [seg, List.nil_append]
        by_cases hc0 : c = 0
        · subst hc0
          simp only [nextFitLoop, hb, hsk, if_pos hnext]
          simp [seg]
        · have hrec := nextFitLoop_beforeCursor chain a c hc f 0 (by omega) (by omega)
          simp only [nextFitLoop, hb, hsk, if_pos hnext]
          rw [if_neg hc0]
          exact hrec
      · have hrec := ih (i + 1) (by omega) (by omega) (by omega)
        simp only [nextFitLoop, hb, hsk]
        rw [if_neg hnext,
          if_neg (show ¬ (some c : Option Nat) = some (i + 1) by
            simp only [Option.some.injEq]; omega)]
        exact hrec

/-- C6: nextFit scans linearly starting at the cursor (or at the chain
head when the cursor is unset), wraps circularly at most once, and
terminates — without a match exactly when the scan has come back to its
starting block, i.e. after inspecting every index once in scan order.
With any valid cursor and enough fuel the loop returns the first fitting
block in that scan order, and on success the cursor is updated to the
found block (on failure the state is untouched), so the next search
resumes from the found block instead of restarting at the head. -/
theorem nextFit_scan (s : AllocState) (a fuel : Nat)
    (hcur : ∀ c, s.cursor = some c → c < s.chain.length)
    (hfuel : s.chain.length < fuel) :
    nextFit s a fuel =
      some (nextFitSpec s.chain s.cursor a,
        match nextFitSpec s.chain s.cursor a with
        | some i => { s with cursor := some i }
        | none => s) := by
  cases hc : s.cursor with
  | none =>
    by_cases hn : s.chain.length = 0
    · simp only [nextFit, hc, if_pos hn]
      simp [nextFitSpec, scanOrder, hn, seg]
    · have hloop := nextFitLoop_noCursor s.chain a fuel 0 (by omega)
      have hspec : nextFitSpec s.chain none a =
          (seg 0 (s.chain.length - 0)).find? (fitsIdx s.chain a) := by
        simp [nextFitSpec, scanOrder]
      simp only [nextFit, hc, if_neg hn]
      rw [hloop, ← hspec]
      cases hr : nextFitSpec s.chain none a with
      | none => rfl
      | some i => rfl
  | some c =>
    have hcl := hcur c hc
    have hloop := nextFitLoop_fromCursor s.chain a c hcl fuel c (Nat.le_refl c) hcl (by omega)
    have hspec : nextFitSpec s.chain (some c) a =
        (seg c (s.chain.length - c) ++ seg 0 c).find? (fitsIdx s.chain a) := by
      simp [nextFitSpec, scanOrder]
    simp only [nextFit, hc]
    rw [hloop, ← hspec]
    cases hr : nextFitSpec s.chain (some c) a with
    | none => rfl
    | some i => rfl

/-- C6 witness at a concrete three-block chain with the cursor on the
last block: the free cursor block itself is found and the cursor stays
there. -/
theorem nextFit_scan_w :
    nextFit nfState 16 7 = some (some 2, { nfState with cursor := some 2 }) := by
  have h := nextFit_scan nfState 16 7
    (by
      intro c hcc
      simp only [nfState, Option.some.injEq] at hcc
      subst hcc
      decide)
    (by decide)
  rw [h]
  decide

end Alloc
